import Mathlib

/-!
Verification of the job scheduling, cancellation and result-caching layer of
the gs-gpl-utils browser PDF compressor.

The JavaScript sources (`pdfapi.js`, `compress-worker.js`) are shallowly
embedded below.  Pure computations become Lean functions; the stateful
classes become explicit state records with one Lean function per method;
the single-threaded callback scheduling of the browser becomes a step
function over an event list (one event per atomic continuation segment).
Binary payloads are modelled as `List Nat` (byte lists); blob URLs and
cache keys as `String`; the opaque WASM engine as an arbitrary function
parameter.
-/

/-! ## Request versioning (pdfapi.js: `previewRequestId`)

The controller keeps a single counter `previewRequestId`.  It is only ever
advanced by `this.previewRequestId++` (in `handleQualityChange`,
`handleFile` and `reset`).  An asynchronous continuation captures the
counter at submission time and later evaluates
`requestId !== this.previewRequestId` (the `isOutdated` closure of
`loadQualityWithPriority`, pdfapi.js line 474). -/

/-- `this.previewRequestId++` : advance the generation counter by one. -/
def bump (n : Nat) : Nat := n + 1

/-- `k` successive bumps of the counter. -/
def bumpN : Nat → Nat → Nat
  | 0, n => n
  | k + 1, n => bumpN k (bump n)

/-- The staleness test `requestId !== this.previewRequestId`
(pdfapi.js line 474): the captured generation compared against the live
counter. -/
def isOutdated (requestId current : Nat) : Bool := requestId != current

/-! ## Engine lifecycle (compress-worker.js: `GhostscriptEngine`)

State of the engine wrapper: whether a WASM module instance exists
(`this.module !== null`) and the invocation counter
(`this.compressionCount`).  The engine itself is opaque; `compress` is
parametrised by the outcome of `callMain` (success or throw). -/

structure GhostscriptEngine where
  hasModule : Bool
  compressionCount : Nat
  deriving DecidableEq, Repr

/-- `new GhostscriptEngine()` : no module yet, counter 0. -/
def freshEngine : GhostscriptEngine := ⟨false, 0⟩

/-- `GhostscriptEngine.init(forceReinit)` (compress-worker.js lines 16-24):
reinitialize when forced, when no module exists, or when the counter has
reached 3; reinitialization resets the counter to 0.  Returns the new
state and whether a reinitialization happened. -/
def GhostscriptEngine.init (s : GhostscriptEngine) (forceReinit : Bool) :
    GhostscriptEngine × Bool :=
  if forceReinit || !s.hasModule || decide (s.compressionCount ≥ 3) then
    (⟨true, 0⟩, true)
  else
    (s, false)

/-- `GhostscriptEngine.compress` (compress-worker.js lines 68-91), with the
opaque `callMain` outcome as the parameter `ok`.  On success the counter is
incremented and no error escapes; on failure the counter is forced to 999
and the error is rethrown.  Returns the new state and whether an error was
propagated to the caller. -/
def GhostscriptEngine.compress (s : GhostscriptEngine) (ok : Bool) :
    GhostscriptEngine × Bool :=
  if ok then ({ s with compressionCount := s.compressionCount + 1 }, false)
  else ({ s with compressionCount := 999 }, true)

/-- One full invocation as performed by `PDFCompressionWorker.process`
(compress-worker.js lines 145-146): `await this.engine.init()` (no force)
followed by `this.engine.compress`.  Returns (new state, reinitialized?,
error propagated?). -/
def engineInvocation (s : GhostscriptEngine) (ok : Bool) :
    GhostscriptEngine × Bool × Bool :=
  ⟨((s.init false).1.compress ok).1, (s.init false).2, ((s.init false).1.compress ok).2⟩

/-- Run a sequence of invocations with the given outcomes, collecting the
reinitialization flag of each invocation. -/
def engineRun : GhostscriptEngine → List Bool → List Bool
  | _, [] => []
  | s, ok :: rest =>
    (engineInvocation s ok).2.1 :: engineRun (engineInvocation s ok).1 rest

/-! ## Quality parsing and the worker process pipeline
(compress-worker.js: `PDFCompressionWorker`) -/

/-- Parsed quality: a DPI number for the engine, or the sentinel that
bypasses the engine. -/
inductive DPI where
  | num (n : Nat)
  | original
  deriving DecidableEq, Repr

/-- `PDFCompressionWorker.parseQuality` (compress-worker.js lines 107-118):
`qualityMap[quality] ?? 150`.  The `customDPI` argument of the source is
ignored by the source itself, so it is dropped here. -/
def parseQuality (quality : String) : DPI :=
  if quality = "low" then DPI.num 100
  else if quality = "medium" then DPI.num 150
  else if quality = "good" then DPI.num 200
  else if quality = "high" then DPI.num 250
  else if quality = "best" then DPI.num 300
  else if quality = "original" then DPI.original
  else DPI.num 150

/-- The ordered level list of the background preloader
(pdfapi.js line 606). -/
def preloadQualities : List String := ["low", "medium", "fair", "good", "high"]

/-- The result-selection logic of `PDFCompressionWorker.process`
(compress-worker.js lines 131-156): for `"original"` return the input
unchanged; otherwise invoke the engine at the parsed DPI and, if the
output is not smaller than the input (`compressedSize >= buffer.byteLength`),
substitute the original input bytes. -/
def processW (input : List Nat) (quality : String)
    (engine : List Nat → Nat → List Nat) : List Nat :=
  match parseQuality quality with
  | DPI.original => input
  | DPI.num d =>
    let output := engine input d
    if output.length ≥ input.length then input else output

/-! ## Preview cache (pdfapi.js: `PreviewCache`, lines 200-221)

Entries are (key, blob, url); `revoked` is the log of
`URL.revokeObjectURL` calls made by the cache, used to state leak
properties. -/

structure PreviewCache where
  entries : List (String × Nat × String)
  revoked : List String
  deriving DecidableEq, Repr

/-- JS `Map.set` semantics on an association list: replace in place if the
key is present, else append. -/
def setEntryList : List (String × Nat × String) → String → Nat → String →
    List (String × Nat × String)
  | [], k, b, u => [(k, b, u)]
  | (k', b', u') :: rest, k, b, u =>
    if k' = k then (k, b, u) :: rest
    else (k', b', u') :: setEntryList rest k b u

/-- `PreviewCache.set` (pdfapi.js lines 213-215):
`this.cache.set(key, { blob, url })` — it overwrites the map entry and
calls no `URL.revokeObjectURL`. -/
def PreviewCache.set (s : PreviewCache) (key : String) (blob : Nat)
    (url : String) : PreviewCache :=
  { s with entries := setEntryList s.entries key blob url }

/-- `PreviewCache.has` (pdfapi.js line 209). -/
def PreviewCache.hasKey (s : PreviewCache) (key : String) : Bool :=
  s.entries.any (fun e => e.1 = key)

/-- `PreviewCache.clear` (pdfapi.js lines 217-220): revoke every stored
url, then drop all entries. -/
def PreviewCache.clear (s : PreviewCache) : PreviewCache :=
  { entries := [], revoked := s.revoked ++ s.entries.map (fun e => e.2.2) }

/-- The empty cache (`new PreviewCache()`). -/
def emptyCache : PreviewCache := ⟨[], []⟩

/-! ## Job queue manager (pdfapi.js: `CompressionWorker`, lines 97-195)

The queue manager state.  `messageId`, `pendingRequests`, `isProcessing`
and `queue` mirror the JS fields (the pending map becomes an association
list from message id to the job's label; the queued `{fileBuffer, quality,
customDPI, resolve, reject}` records are identified by a `Nat` job label,
since only identity and ordering matter here).  The three extra fields are
append-only histories of the externally observable events and do not feed
back into control flow: `submitted` records each `compress` call,
`executed` each `postMessage` to the worker (an engine execution start),
and `settled` each `resolve`/`reject` of a job's promise. -/

structure CompressionWorker where
  messageId : Nat
  pendingRequests : List (Nat × Nat)
  isProcessing : Bool
  queue : List Nat
  submitted : List Nat
  executed : List Nat
  settled : List (Nat × Bool)
  deriving DecidableEq, Repr

/-- `new CompressionWorker()` (pdfapi.js lines 98-105). -/
def initW : CompressionWorker := ⟨0, [], false, [], [], [], []⟩

/-- `CompressionWorker.executeCompress` (pdfapi.js lines 171-181): mark
busy, allocate `++this.messageId`, store the promise handlers in
`pendingRequests`, and post the job to the worker (recorded in
`executed`). -/
def executeCompress (s : CompressionWorker) (job : Nat) : CompressionWorker :=
  let mid := s.messageId + 1
  { s with
    isProcessing := true
    messageId := mid
    pendingRequests := s.pendingRequests ++ [(mid, job)]
    executed := s.executed ++ [job] }

/-- `CompressionWorker.processNext` (pdfapi.js lines 163-169): clear the
busy flag, then start the head of the queue if any. -/
def processNext (s : CompressionWorker) : CompressionWorker :=
  match s.queue with
  | [] => { s with isProcessing := false }
  | next :: rest => executeCompress { s with isProcessing := false, queue := rest } next

/-- `CompressionWorker.compress` (pdfapi.js lines 183-194): if busy, append
to the queue; otherwise execute immediately. -/
def CompressionWorker.compress (s : CompressionWorker) (job : Nat) :
    CompressionWorker :=
  let s := { s with submitted := s.submitted ++ [job] }
  if s.isProcessing then { s with queue := s.queue ++ [job] }
  else executeCompress s job

/-- The `worker.onmessage` handler (pdfapi.js lines 114-145): look the
message id up in `pendingRequests`; if found, delete it, settle the job's
promise (`resolve` on success, `reject` otherwise) and call `processNext`;
an unknown id only calls `processNext`.  The handler is one event here:
the `await fetch` inside it keeps `isProcessing` true, and under the
well-formedness below at most one worker reply can be outstanding, so no
other queue mutation interleaves. -/
def onMessage (s : CompressionWorker) (mid : Nat) (ok : Bool) :
    CompressionWorker :=
  match s.pendingRequests.find? (fun p => p.1 == mid) with
  | some p =>
    processNext
      { s with
        pendingRequests := s.pendingRequests.filter (fun r => r.1 != mid)
        settled := s.settled ++ [(p.2, ok)] }
  | none => processNext s

/-- `CompressionWorker.reset` (pdfapi.js lines 151-161): terminate the
worker, zero the message counter, clear the pending map and the queue,
clear the busy flag.  No promise is settled. -/
def CompressionWorker.reset (s : CompressionWorker) : CompressionWorker :=
  { s with
    messageId := 0
    pendingRequests := []
    isProcessing := false
    queue := [] }

/-- External events driving the queue manager: a `compress` submission, or
a reply message from the worker. -/
inductive WEvent where
  | submit (job : Nat)
  | message (mid : Nat) (ok : Bool)
  deriving DecidableEq, Repr

/-- One scheduler step. -/
def stepW (s : CompressionWorker) (e : WEvent) : CompressionWorker :=
  match e with
  | WEvent.submit j => s.compress j
  | WEvent.message mid ok => onMessage s mid ok

/-- Run a list of events from a state. -/
def runFrom (s : CompressionWorker) (es : List WEvent) : CompressionWorker :=
  es.foldl stepW s

/-- Run from the initial state. -/
def runW (es : List WEvent) : CompressionWorker := runFrom initW es

/-- Well-formed event lists: every worker reply carries a message id that
is pending when it arrives.  This holds of the real worker, which sends
exactly one reply per posted request, tagged with that request's id
(compress-worker.js lines 141-158). -/
def wfFrom (s : CompressionWorker) : List WEvent → Bool
  | [] => true
  | e :: rest =>
    (match e with
     | WEvent.message mid _ =>
       (s.pendingRequests.find? (fun p => p.1 == mid)).isSome
     | _ => true) && wfFrom (stepW s e) rest

/-! ## Observable event traces of the controller paths
(pdfapi.js: `PDFCompressor`)

`Ev` lists the externally observable actions of one controller code path:
pending-set mutations, a `worker.compress` submission, a cache write, and
the presentation side effects. -/

inductive Ev where
  | pendAdd (q : String)
  | submit (q : String)
  | pendDel (q : String)
  | cacheWrite (q : String)
  | showLoading
  | hideLoading
  | showPreview
  | render
  | sizeUpdate
  | unlock (q : String)
  | alertErr
  | servedFromCache (q : String)
  deriving DecidableEq, Repr

/-- The per-level body of the preload loop
(`PDFCompressor.preloadAllQualities`, pdfapi.js lines 630-695), for one
quality `q`: skip (but refresh the unlock) if cached; skip silently if in
`pendingQualities`; otherwise add to the pending set, submit, and on
settle delete from the pending set; then, unless the file changed or a
pause was observed after the compression (`interrupted`), write the cache
and unlock.  On a failed job the level is unlocked with an error hint and
the loop continues.  The loop-top stop conditions (file change / pause)
are modelled at the loop level by `preloadLoop` below. -/
def preloadIterTrace (cached pending : Bool) (q : String)
    (ok interrupted : Bool) : List Ev :=
  if cached then [Ev.unlock q]
  else if pending then []
  else if ok then
    [Ev.pendAdd q, Ev.submit q, Ev.pendDel q] ++
      (if interrupted then [] else [Ev.cacheWrite q, Ev.unlock q])
  else [Ev.pendAdd q, Ev.submit q, Ev.pendDel q, Ev.unlock q]

/-- `PDFCompressor.loadQualityWithPriority` (pdfapi.js lines 471-528) as a
trace.  `rid` is the captured `requestId`; `c1`, `c2`, `c3` are the live
`previewRequestId` values at the three `isOutdated()` evaluation points
(before the compression, after it, and after the render; the catch branch
evaluates the test at the `c2` point).  `ok` is the job outcome.  Note the
cache write precedes the second staleness check, and the pending set is
never consulted or touched on this path. -/
def loadQualityTrace (q : String) (rid c1 c2 c3 : Nat) (ok : Bool) :
    List Ev :=
  Ev.showLoading ::
    (if isOutdated rid c1 then [Ev.hideLoading]
     else
       Ev.submit q ::
         (if ok then
            Ev.cacheWrite q ::
              (if isOutdated rid c2 then [Ev.hideLoading]
               else
                 Ev.showPreview :: Ev.render ::
                   (if isOutdated rid c3 then [Ev.hideLoading]
                    else [Ev.sizeUpdate, Ev.hideLoading, Ev.unlock q]))
          else
            Ev.hideLoading ::
              (if isOutdated rid c2 then [] else [Ev.alertErr])))

/-- `PDFCompressor.handleQualityChange` (pdfapi.js lines 433-453), after
the bump and overlay reset: a cached key is shown from the cache; an
uncached key goes to `loadQualityWithPriority`.  Only the result cache is
consulted — `pendingQualities` plays no part on this path. -/
def handleQualityTrace (cachedHas : Bool) (q : String) (rid c1 c2 c3 : Nat)
    (ok : Bool) : List Ev :=
  if cachedHas then [Ev.servedFromCache q]
  else loadQualityTrace q rid c1 c2 c3 ok

/-! ## The preload loop over the level list
(pdfapi.js: `preloadAllQualities`, lines 599-699)

Membership test on the string lists modelling `this.cache.has` and
`this.pendingQualities.has`. -/

def memS : List String → String → Bool
  | [], _ => false
  | y :: ys, x => if y = x then true else memS ys x

/-- The preload loop, specialised to the scenario of uninterrupted
successful jobs up to a cooperative pause: `c` is the cache content,
`pend` the externally pending keys (jobs submitted by another call path),
and `pauseAfter` the number of further submissions after which the pause
flag is observed at the loop top (`none` = never paused).  Each iteration:
stop if the pause is observed; skip a cached or pending level; otherwise
submit the level and cache its result.  Returns the list of submitted
levels in order and the final cache content. -/
def preloadLoop (c pend : List String) (pauseAfter : Option Nat) :
    List String → List String × List String
  | [] => ([], c)
  | q :: rest =>
    if pauseAfter = some 0 then ([], c)
    else if memS c q then preloadLoop c pend pauseAfter rest
    else if memS pend q then preloadLoop c pend pauseAfter rest
    else
      let r := preloadLoop (c ++ [q]) pend (pauseAfter.map (· - 1)) rest
      (q :: r.1, r.2)

/-! ## Helper lemmas -/

/-- `k` bumps advance the counter by exactly `k`. -/
theorem bumpN_eq (k n : Nat) : bumpN k n = n + k := by
  induction k generalizing n with
  | zero => simp [bumpN]
  | succ m ih => simp [bumpN, bump, ih]; omega

/-- `memS` decides list membership. -/
theorem memS_iff (l : List String) (x : String) : memS l x = true ↔ x ∈ l := by
  induction l with
  | nil => simp [memS]
  | cons y ys ih =>
    by_cases h : y = x
    · simp [memS, h]
    · simp [memS, h, ih, List.mem_cons, Ne.symm h]

/-- `memS` distributes over append. -/
theorem memS_append (l1 l2 : List String) (x : String) :
    memS (l1 ++ l2) x = (memS l1 x || memS l2 x) := by
  induction l1 with
  | nil => simp [memS]
  | cons y ys ih =>
    simp only [List.cons_append, memS]
    split <;> simp [ih]

/-- The final cache of a preload run is the starting cache extended by the
submitted levels, in order. -/
theorem preloadLoop_cache (qs : List String) : ∀ c pend pa,
    (preloadLoop c pend pa qs).2 = c ++ (preloadLoop c pend pa qs).1 := by
  induction qs with
  | nil => intro c pend pa; simp [preloadLoop]
  | cons q rest ih =>
    intro c pend pa
    simp only [preloadLoop]
    split
    · simp
    · split
      · exact ih c pend pa
      · split
        · exact ih c pend pa
        · simp only []
          rw [ih (c ++ [q]) pend (pa.map (· - 1))]
          simp

/-- An unpaused preload run submits exactly the levels that are neither
cached nor pending, in list order. -/
theorem preloadLoop_none_filter : ∀ (qs : List String), qs.Nodup →
    ∀ c pend, (preloadLoop c pend none qs).1 =
      qs.filter (fun q => !(memS c q) && !(memS pend q)) := by
  intro qs
  induction qs with
  | nil => intro _ c pend; simp [preloadLoop]
  | cons q rest ih =>
    intro hnd c pend
    have hq : q ∉ rest := (List.nodup_cons.mp hnd).1
    have hrest : rest.Nodup := (List.nodup_cons.mp hnd).2
    simp only [preloadLoop, List.filter_cons]
    rw [if_neg (by simp)]
    by_cases hc : memS c q
    · rw [if_pos hc, ih hrest c pend]
      simp [hc]
    · rw [if_neg hc]
      by_cases hp : memS pend q
      · rw [if_pos hp, ih hrest c pend]
        simp [hc, hp]
      · rw [if_neg hp]
        simp only [hc, hp, Bool.not_false, Bool.and_self, if_pos]
        simp only [Option.map_none']
        rw [ih hrest (c ++ [q]) pend]
        have hflt : rest.filter (fun x => !(memS (c ++ [q]) x) && !(memS pend x)) =
            rest.filter (fun x => !(memS c x) && !(memS pend x)) := by
          apply List.filter_congr
          intro x hx
          have hxq : q ≠ x := fun he => hq (he ▸ hx)
          simp [memS_append, memS, hxq]
        rw [hflt]

/-! ## C5 — staleness test -/

/-- C5: the staleness test `requestId !== this.previewRequestId` is true
for a captured generation `g` iff the counter has been bumped at least
once since the capture; any advancement, by any amount, marks the capture
as stale. -/
theorem staleness_iff_bumped (g k : Nat) :
    isOutdated g (bumpN k g) = true ↔ 0 < k := by
  rw [bumpN_eq]
  simp [isOutdated, bne_iff_ne]
  omega

/-- Witness for C5 at `g = 5`, `k = 2`. -/
theorem staleness_iff_bumped_w : isOutdated 5 (bumpN 2 5) = true :=
  (staleness_iff_bumped 5 2).mpr (by decide)

/-! ## C2 — engine lifecycle -/

/-- C2: starting from a fresh engine, invocation 1 reinitializes, 2 and 3
keep the module live, and 4 reinitializes again (threshold 3); a failed
invocation propagates its error and forces the very next invocation to
reinitialize; the counter is incremented on success, forced to the
out-of-range sentinel on failure, and reset to 0 on every
reinitialization. -/
theorem ghostscriptEngine_lifecycle :
    engineRun freshEngine [true, true, true, true] = [true, false, false, true] ∧
    (∀ (s : GhostscriptEngine) (ok : Bool),
      (engineInvocation s false).2.2 = true ∧
      (engineInvocation (engineInvocation s false).1 ok).2.1 = true) ∧
    (∀ (s : GhostscriptEngine) (f : Bool),
      (s.init f).2 = true → (s.init f).1.compressionCount = 0) ∧
    (∀ s : GhostscriptEngine,
      (s.compress true).1.compressionCount = s.compressionCount + 1) ∧
    (∀ s : GhostscriptEngine, (s.compress false).1.compressionCount = 999) := by
  refine ⟨by decide, ?_, ?_, ?_, ?_⟩
  · intro s ok
    constructor
    · simp [engineInvocation, GhostscriptEngine.compress]
    · simp [engineInvocation, GhostscriptEngine.compress, GhostscriptEngine.init]
  · intro s f h
    unfold GhostscriptEngine.init at h ⊢
    split at h <;> simp_all
  · intro s; simp [GhostscriptEngine.compress]
  · intro s; simp [GhostscriptEngine.compress]

/-- Witness for C2: the forced reinitialization on a fresh engine resets
the counter to 0. -/
theorem ghostscriptEngine_lifecycle_w :
    (freshEngine.init true).2 = true ∧
    (freshEngine.init true).1.compressionCount = 0 :=
  ⟨by decide, ghostscriptEngine_lifecycle.2.2.1 freshEngine true (by decide)⟩

/-! ## C9 — size-regression guard -/

/-- C9: whenever the engine's output is not smaller than the input, the
worker substitutes the original input bytes as the effective result, so
the delivered result is never larger than the input. -/
theorem size_regression_guard (input : List Nat) (quality : String)
    (engine : List Nat → Nat → List Nat) :
    (∀ d : Nat, parseQuality quality = DPI.num d →
      (engine input d).length ≥ input.length →
      processW input quality engine = input) ∧
    (processW input quality engine).length ≤ input.length := by
  constructor
  · intro d hd hbig
    simp [processW, hd, hbig]
  · unfold processW
    cases hp : parseQuality quality with
    | original => exact Nat.le_refl _
    | num d =>
      simp only []
      split
      · exact Nat.le_refl _
      · omega

/-- Witness for C9: an engine whose output doubles the input is overridden
by the original bytes. -/
theorem size_regression_guard_w :
    parseQuality "low" = DPI.num 100 ∧
    ((fun (i : List Nat) (_ : Nat) => i ++ i) [1, 2] 100).length ≥
      ([1, 2] : List Nat).length ∧
    processW [1, 2] "low" (fun i _ => i ++ i) = [1, 2] :=
  ⟨by decide, by decide,
    (size_regression_guard [1, 2] "low" (fun i _ => i ++ i)).1 100
      (by decide) (by decide)⟩

/-! ## C10 — default quality parsing -/

/-- C10: any quality name outside the worker's quality map — in particular
the name `"fair"` submitted by the preload loop — parses to DPI 150,
identical to `"medium"`, and therefore compresses through the engine at
medium settings rather than failing or bypassing it. -/
theorem parse_quality_default :
    (∀ q : String,
      q ∉ ["low", "medium", "good", "high", "best", "original"] →
      parseQuality q = DPI.num 150) ∧
    parseQuality "fair" = DPI.num 150 ∧
    parseQuality "fair" = parseQuality "medium" ∧
    "fair" ∈ preloadQualities ∧
    parseQuality "fair" ≠ DPI.original ∧
    (∀ (input : List Nat) (engine : List Nat → Nat → List Nat),
      processW input "fair" engine = processW input "medium" engine) := by
  refine ⟨?_, by decide, by decide, by decide, by decide, ?_⟩
  · intro q hq
    simp only [List.mem_cons, List.not_mem_nil, or_false, not_or] at hq
    obtain ⟨h1, h2, h3, h4, h5, h6⟩ := hq
    simp [parseQuality, h1, h2, h3, h4, h5, h6]
  · intro input engine
    unfold processW
    rw [show parseQuality "fair" = parseQuality "medium" from by decide]

/-- Witness for C10 at the unmapped name `"zzz"`. -/
theorem parse_quality_default_w :
    "zzz" ∉ ["low", "medium", "good", "high", "best", "original"] ∧
    parseQuality "zzz" = DPI.num 150 :=
  ⟨by decide, parse_quality_default.1 "zzz" (by decide)⟩

/-! ## C3 — cache overwrite leaks the replaced handle -/

/-- C3 (code bug): overwriting the key `"medium"` replaces the entry but
never revokes the old entry's URL `"u1"` — `PreviewCache.set` calls no
`URL.revokeObjectURL`, so the replaced handle is neither stored nor
revoked, i.e. leaked, contradicting the specified no-leak requirement. -/
theorem previewCache_set_leaks :
    ((emptyCache.set "medium" 1 "u1").set "medium" 2 "u2").entries =
      [("medium", 2, "u2")] ∧
    "u1" ∉ ((emptyCache.set "medium" 1 "u1").set "medium" 2 "u2").revoked ∧
    "u1" ∉ (((emptyCache.set "medium" 1 "u1").set "medium" 2 "u2").entries.map
      (fun e => e.2.2)) := by
  refine ⟨by decide, by decide, by decide⟩


/-! ## C6 — stale results are cached but not presented -/

/-- C6: a user-driven compression whose result arrives after the
generation counter has advanced (not stale at submission, stale on
arrival) still writes the result cache, but performs none of the
presentation side effects: no preview, no render, no size update, no
unlock. -/
theorem stale_result_cached_not_presented (q : String) (rid c1 c2 c3 : Nat)
    (h1 : isOutdated rid c1 = false) (h2 : isOutdated rid c2 = true) :
    loadQualityTrace q rid c1 c2 c3 true =
      [Ev.showLoading, Ev.submit q, Ev.cacheWrite q, Ev.hideLoading] ∧
    Ev.cacheWrite q ∈ loadQualityTrace q rid c1 c2 c3 true ∧
    Ev.showPreview ∉ loadQualityTrace q rid c1 c2 c3 true ∧
    Ev.render ∉ loadQualityTrace q rid c1 c2 c3 true ∧
    Ev.sizeUpdate ∉ loadQualityTrace q rid c1 c2 c3 true ∧
    Ev.unlock q ∉ loadQualityTrace q rid c1 c2 c3 true := by
  have ht : loadQualityTrace q rid c1 c2 c3 true =
      [Ev.showLoading, Ev.submit q, Ev.cacheWrite q, Ev.hideLoading] := by
    simp [loadQualityTrace, h1, h2]
  rw [ht]
  simp

/-- Witness for C6: capture at generation 0, counter bumped to 1 while the
job runs. -/
theorem stale_result_cached_not_presented_w :
    isOutdated 0 0 = false ∧ isOutdated 0 1 = true ∧
    (loadQualityTrace "medium" 0 0 1 1 true =
      [Ev.showLoading, Ev.submit "medium", Ev.cacheWrite "medium",
        Ev.hideLoading] ∧
    Ev.cacheWrite "medium" ∈ loadQualityTrace "medium" 0 0 1 1 true ∧
    Ev.showPreview ∉ loadQualityTrace "medium" 0 0 1 1 true ∧
    Ev.render ∉ loadQualityTrace "medium" 0 0 1 1 true ∧
    Ev.sizeUpdate ∉ loadQualityTrace "medium" 0 0 1 1 true ∧
    Ev.unlock "medium" ∉ loadQualityTrace "medium" 0 0 1 1 true) :=
  ⟨by decide, by decide,
    stale_result_cached_not_presented "medium" 0 0 1 1 (by decide) (by decide)⟩

/-! ## C4 — pending-set ordering and duplicate suppression -/

/-- C4 fails on the code in two places, both exhibited here at concrete
inputs.  First, in the preload loop's per-level body the key is deleted
from `pendingQualities` strictly before the cache write (pdfapi.js lines
667 and 680), so the cache write does not happen before the pending-set
removal.  Second, the user-driven path consults only the result cache:
`handleQualityChange`/`loadQualityWithPriority` submit a second engine job
for an uncached key even when that key is currently pending (the trace
below is independent of the pending set, which the path never reads). -/
theorem pendingSet_order_counterexample :
    List.indexOf (Ev.pendDel "low") (preloadIterTrace false false "low" true false) <
      List.indexOf (Ev.cacheWrite "low") (preloadIterTrace false false "low" true false) ∧
    Ev.submit "medium" ∈ handleQualityTrace false "medium" 0 0 0 0 true := by
  refine ⟨by decide, by decide⟩

/-- C4 amended: the key is inserted into the PendingSet before its job is
submitted; on completion the key is removed from the PendingSet
immediately before (not after) the ResultCache write, both inside one
synchronous continuation; the preload loop itself never submits a cached
or pending key; but a user-driven request consults only the ResultCache —
a cached key is served from the cache, while an uncached key is submitted
to the engine again even if it is pending (serialized behind the first job
by the FIFO queue, not concurrent with it). -/
theorem pendingSet_order_amended (q : String) (pending ok interrupted : Bool)
    (rid c1 c2 c3 : Nat) :
    preloadIterTrace false false q true false =
      [Ev.pendAdd q, Ev.submit q, Ev.pendDel q, Ev.cacheWrite q, Ev.unlock q] ∧
    Ev.submit q ∉ preloadIterTrace true pending q ok interrupted ∧
    Ev.submit q ∉ preloadIterTrace false true q ok interrupted ∧
    handleQualityTrace true q rid c1 c2 c3 ok = [Ev.servedFromCache q] ∧
    (isOutdated rid c1 = false →
      Ev.submit q ∈ handleQualityTrace false q rid c1 c2 c3 ok) := by
  refine ⟨by simp [preloadIterTrace], ?_, ?_, by simp [handleQualityTrace], ?_⟩
  · simp [preloadIterTrace]
  · simp [preloadIterTrace]
  · intro h
    cases ok <;> simp [handleQualityTrace, loadQualityTrace, h]

/-- Witness for C4 (amended) at `q = "medium"` with a pending duplicate
and a fresh generation. -/
theorem pendingSet_order_amended_w :
    isOutdated 0 0 = false ∧
    (preloadIterTrace false false "medium" true false =
      [Ev.pendAdd "medium", Ev.submit "medium", Ev.pendDel "medium",
        Ev.cacheWrite "medium", Ev.unlock "medium"] ∧
    Ev.submit "medium" ∉ preloadIterTrace true true "medium" true false ∧
    Ev.submit "medium" ∉ preloadIterTrace false true "medium" true false ∧
    handleQualityTrace true "medium" 0 0 0 0 true =
      [Ev.servedFromCache "medium"] ∧
    (isOutdated 0 0 = false →
      Ev.submit "medium" ∈ handleQualityTrace false "medium" 0 0 0 0 true)) ∧
    Ev.submit "medium" ∈ handleQualityTrace false "medium" 0 0 0 0 true :=
  ⟨by decide, pendingSet_order_amended "medium" true true false 0 0 0 0,
    (pendingSet_order_amended "medium" true true false 0 0 0 0).2.2.2.2
      (by decide)⟩

/-! ## C8 — pause and resume of the preload loop -/

/-- C8: if the preload loop is paused after a prefix of levels has
completed and been cached, a later resume submits exactly the
not-yet-cached, not-pending levels in list order, and never re-submits a
level completed before the pause, a cached level, or a pending level. -/
theorem preload_resume_exact (c pend qs : List String) (k : Nat)
    (hnd : qs.Nodup) :
    (preloadLoop (preloadLoop c pend (some k) qs).2 pend none qs).1 =
      qs.filter (fun q =>
        !(memS (preloadLoop c pend (some k) qs).2 q) && !(memS pend q)) ∧
    (∀ q ∈ (preloadLoop c pend (some k) qs).1,
      q ∉ (preloadLoop (preloadLoop c pend (some k) qs).2 pend none qs).1) ∧
    (∀ q ∈ (preloadLoop (preloadLoop c pend (some k) qs).2 pend none qs).1,
      memS (preloadLoop c pend (some k) qs).2 q = false ∧
        memS pend q = false) := by
  refine ⟨preloadLoop_none_filter qs hnd _ pend, ?_, ?_⟩
  · intro q hq
    have hcache : q ∈ (preloadLoop c pend (some k) qs).2 := by
      rw [preloadLoop_cache]
      exact List.mem_append_right c hq
    rw [preloadLoop_none_filter qs hnd _ pend]
    intro hmem
    have h2 := (List.mem_filter.mp hmem).2
    simp only [Bool.and_eq_true, Bool.not_eq_true'] at h2
    exact absurd ((memS_iff _ q).mpr hcache) (by simp [h2.1])
  · intro q hmem
    rw [preloadLoop_none_filter qs hnd _ pend] at hmem
    have h2 := (List.mem_filter.mp hmem).2
    simp only [Bool.and_eq_true, Bool.not_eq_true'] at h2
    exact h2

/-- Witness for C8: levels `[low, medium, fair, good, high]`, pause after
the first two complete; the resume submits exactly `[fair, good, high]`. -/
theorem preload_resume_exact_w :
    (["low", "medium", "fair", "good", "high"] : List String).Nodup ∧
    ((preloadLoop (preloadLoop [] [] (some 2)
        ["low", "medium", "fair", "good", "high"]).2 [] none
        ["low", "medium", "fair", "good", "high"]).1 =
      (["low", "medium", "fair", "good", "high"] : List String).filter
        (fun q =>
          !(memS (preloadLoop [] [] (some 2)
              ["low", "medium", "fair", "good", "high"]).2 q) &&
            !(memS [] q)) ∧
    (∀ q ∈ (preloadLoop [] [] (some 2)
        ["low", "medium", "fair", "good", "high"]).1,
      q ∉ (preloadLoop (preloadLoop [] [] (some 2)
          ["low", "medium", "fair", "good", "high"]).2 [] none
          ["low", "medium", "fair", "good", "high"]).1) ∧
    (∀ q ∈ (preloadLoop (preloadLoop [] [] (some 2)
        ["low", "medium", "fair", "good", "high"]).2 [] none
        ["low", "medium", "fair", "good", "high"]).1,
      memS (preloadLoop [] [] (some 2)
        ["low", "medium", "fair", "good", "high"]).2 q = false ∧
        memS [] q = false)) ∧
    (preloadLoop (preloadLoop [] [] (some 2)
        ["low", "medium", "fair", "good", "high"]).2 [] none
        ["low", "medium", "fair", "good", "high"]).1 =
      ["fair", "good", "high"] :=
  ⟨by decide,
    preload_resume_exact [] [] ["low", "medium", "fair", "good", "high"] 2
      (by decide),
    by decide⟩

/-! ## Queue manager invariants (C1, C7) -/

/-- The queue manager invariant: an idle manager has an empty queue,
exactly one request is pending while busy and none while idle, and the
executed jobs followed by the queued jobs are exactly the submitted jobs
in arrival order. -/
def InvW (s : CompressionWorker) : Prop :=
  (s.isProcessing = false → s.queue = []) ∧
  s.pendingRequests.length = (if s.isProcessing then 1 else 0) ∧
  s.executed ++ s.queue = s.submitted

theorem invW_init : InvW initW :=
  ⟨fun _ => rfl, rfl, rfl⟩

theorem invW_step (s : CompressionWorker) (e : WEvent) (hI : InvW s)
    (hwf : ∀ mid ok, e = WEvent.message mid ok →
      (s.pendingRequests.find? (fun p => p.1 == mid)).isSome = true) :
    InvW (stepW s e) := by
  obtain ⟨h1, h2, h3⟩ := hI
  cases e with
  | submit j =>
    by_cases hp : s.isProcessing
    · have hst : stepW s (WEvent.submit j) =
          { s with submitted := s.submitted ++ [j], queue := s.queue ++ [j] } := by
        simp [stepW, CompressionWorker.compress, hp]
      rw [hst]
      refine ⟨by simp [hp], by simpa [hp] using h2, ?_⟩
      simp only []
      rw [← List.append_assoc, h3]
    · have hp' : s.isProcessing = false := by simpa using hp
      have hq : s.queue = [] := h1 hp'
      have h2' : s.pendingRequests.length = 0 := by simpa [hp'] using h2
      have h3' : s.executed = s.submitted := by simpa [hq] using h3
      have hst : stepW s (WEvent.submit j) =
          { s with submitted := s.submitted ++ [j],
                   isProcessing := true,
                   messageId := s.messageId + 1,
                   pendingRequests := s.pendingRequests ++ [(s.messageId + 1, j)],
                   executed := s.executed ++ [j] } := by
        simp [stepW, CompressionWorker.compress, hp', executeCompress]
      rw [hst]
      refine ⟨by simp, by simp [h2'], ?_⟩
      simp [hq, h3']
  | message mid ok =>
    have hsome := hwf mid ok rfl
    obtain ⟨p, hf⟩ := Option.isSome_iff_exists.mp hsome
    have hne : s.pendingRequests ≠ [] := by
      intro h0
      rw [h0] at hf
      simp [List.find?] at hf
    have hip : s.isProcessing = true := by
      by_contra hb
      have hb' : s.isProcessing = false := by simpa using hb
      have : s.pendingRequests.length = 0 := by simpa [hb'] using h2
      exact hne (List.length_eq_zero.mp this)
    have hlen1 : s.pendingRequests.length = 1 := by simpa [hip] using h2
    obtain ⟨p0, hps⟩ := List.length_eq_one.mp hlen1
    have hb : (p0.1 == mid) = true := by
      rw [hps] at hf
      by_cases hb0 : (p0.1 == mid) = true
      · exact hb0
      · simp [List.find?, hb0] at hf
    have hflt : s.pendingRequests.filter (fun r => r.1 != mid) = [] := by
      rw [hps]
      simp [List.filter, bne, hb]
    have hst : stepW s (WEvent.message mid ok) =
        processNext { s with pendingRequests := [],
                             settled := s.settled ++ [(p.2, ok)] } := by
      simp only [stepW, onMessage, hf, hflt]
    rw [hst]
    cases hqs : s.queue with
    | nil =>
      simp only [processNext]
      refine ⟨fun _ => rfl, by simp, ?_⟩
      have h3' : s.executed = s.submitted := by simpa [hqs] using h3
      simp [h3']
    | cons a l =>
      simp only [processNext, executeCompress]
      refine ⟨by simp, by simp, ?_⟩
      simp only []
      rw [List.append_assoc]
      simpa [hqs] using h3

theorem invW_run : ∀ (es : List WEvent) (s : CompressionWorker),
    InvW s → wfFrom s es = true → InvW (runFrom s es) := by
  intro es
  induction es with
  | nil => intro s hI _; exact hI
  | cons e rest ih =>
    intro s hI hwf
    simp only [wfFrom, Bool.and_eq_true] at hwf
    have hstep : InvW (stepW s e) := by
      refine invW_step s e hI ?_
      intro mid ok he
      subst he
      simpa using hwf.1
    simpa [runFrom] using ih (stepW s e) hstep hwf.2

/-! ## C1 — FIFO order and mutual exclusion -/

/-- C1: for every well-formed sequence of submissions and worker replies,
the jobs posted to the engine (`executed`) followed by the still-queued
jobs are exactly the submitted jobs in arrival order — so executions
happen in exact FIFO arrival order — and at every instant at most one
request is pending against the engine. -/
theorem compressionWorker_fifo_mutex (es : List WEvent)
    (h : wfFrom initW es = true) :
    (runW es).executed ++ (runW es).queue = (runW es).submitted ∧
    (runW es).pendingRequests.length ≤ 1 := by
  have hI := invW_run es initW invW_init h
  unfold runW
  refine ⟨hI.2.2, ?_⟩
  rw [hI.2.1]
  split <;> simp

/-- Witness for C1: three submissions with interleaved replies; executions
follow arrival order with at most one request in flight. -/
theorem compressionWorker_fifo_mutex_w :
    wfFrom initW
        [WEvent.submit 10, WEvent.submit 20, WEvent.message 1 true,
          WEvent.submit 30, WEvent.message 2 false, WEvent.message 3 true] =
      true ∧
    ((runW [WEvent.submit 10, WEvent.submit 20, WEvent.message 1 true,
        WEvent.submit 30, WEvent.message 2 false,
        WEvent.message 3 true]).executed ++
      (runW [WEvent.submit 10, WEvent.submit 20, WEvent.message 1 true,
        WEvent.submit 30, WEvent.message 2 false,
        WEvent.message 3 true]).queue =
      (runW [WEvent.submit 10, WEvent.submit 20, WEvent.message 1 true,
        WEvent.submit 30, WEvent.message 2 false,
        WEvent.message 3 true]).submitted ∧
    (runW [WEvent.submit 10, WEvent.submit 20, WEvent.message 1 true,
        WEvent.submit 30, WEvent.message 2 false,
        WEvent.message 3 true]).pendingRequests.length ≤ 1) :=
  ⟨by decide,
    compressionWorker_fifo_mutex
      [WEvent.submit 10, WEvent.submit 20, WEvent.message 1 true,
        WEvent.submit 30, WEvent.message 2 false, WEvent.message 3 true]
      (by decide)⟩

/-! ## Settle provenance (towards C7) -/

/-- `processNext` never settles a promise. -/
theorem processNext_settled (t : CompressionWorker) :
    (processNext t).settled = t.settled := by
  simp only [processNext]
  split <;> rfl

/-- The queue after `processNext` is a suffix of the queue before. -/
theorem processNext_queue (t : CompressionWorker) (j : Nat) :
    j ∈ (processNext t).queue → j ∈ t.queue := by
  simp only [processNext]
  split
  · exact fun h => h
  · next a l heq =>
    intro h
    rw [heq]
    exact List.mem_cons_of_mem a h

/-- Every job pending after `processNext` was pending or queued before. -/
theorem processNext_pending (t : CompressionWorker) (j : Nat) :
    j ∈ (processNext t).pendingRequests.map Prod.snd →
    j ∈ t.pendingRequests.map Prod.snd ∨ j ∈ t.queue := by
  simp only [processNext]
  split
  · exact fun h => Or.inl h
  · next a l heq =>
    intro h
    simp only [executeCompress, List.map_append] at h
    rcases List.mem_append.mp h with h | h
    · exact Or.inl h
    · right
      simp only [List.map_cons, List.map_nil, List.mem_singleton] at h
      rw [h, heq]
      exact List.mem_cons_self a l

/-- A settle produced by one step names a job that was pending before the
step. -/
theorem settled_step (s : CompressionWorker) (e : WEvent) (j : Nat) (b : Bool) :
    (j, b) ∈ (stepW s e).settled →
    (j, b) ∈ s.settled ∨ j ∈ s.pendingRequests.map Prod.snd := by
  cases e with
  | submit j' =>
    intro h
    left
    have hs : (stepW s (WEvent.submit j')).settled = s.settled := by
      simp only [stepW, CompressionWorker.compress, executeCompress]
      split <;> rfl
    rwa [hs] at h
  | message mid ok =>
    intro h
    simp only [stepW, onMessage] at h
    cases hf : s.pendingRequests.find? (fun p => p.1 == mid) with
    | none =>
      simp only [hf] at h
      rw [processNext_settled] at h
      exact Or.inl h
    | some p =>
      simp only [hf] at h
      rw [processNext_settled] at h
      simp only [List.mem_append, List.mem_singleton] at h
      rcases h with h | h
      · exact Or.inl h
      · right
        have hmem := List.mem_of_find?_eq_some hf
        have hj : j = p.2 := by simpa using congrArg Prod.fst h
        exact List.mem_map.mpr ⟨p, hmem, hj.symm⟩

/-- A job queued after one step was queued before, or is the job submitted
by that step. -/
theorem queue_step (s : CompressionWorker) (e : WEvent) (j : Nat) :
    j ∈ (stepW s e).queue → j ∈ s.queue ∨ e = WEvent.submit j := by
  cases e with
  | submit j' =>
    intro h
    simp only [stepW, CompressionWorker.compress, executeCompress] at h
    split at h
    · simp only [List.mem_append, List.mem_singleton] at h
      rcases h with h | h
      · exact Or.inl h
      · exact Or.inr (by rw [h])
    · exact Or.inl h
  | message mid ok =>
    intro h
    left
    simp only [stepW, onMessage] at h
    cases hf : s.pendingRequests.find? (fun p => p.1 == mid) with
    | none =>
      simp only [hf] at h
      exact processNext_queue s j h
    | some p =>
      simp only [hf] at h
      have h' := processNext_queue _ j h
      simpa using h'

/-- A job pending after one step was pending or queued before, or is the
job submitted by that step. -/
theorem pendingJobs_step (s : CompressionWorker) (e : WEvent) (j : Nat) :
    j ∈ (stepW s e).pendingRequests.map Prod.snd →
    j ∈ s.pendingRequests.map Prod.snd ∨ j ∈ s.queue ∨ e = WEvent.submit j := by
  cases e with
  | submit j' =>
    intro h
    simp only [stepW, CompressionWorker.compress, executeCompress] at h
    split at h
    · exact Or.inl h
    · simp only [List.map_append, List.mem_append, List.map_cons, List.map_nil,
        List.mem_singleton] at h
      rcases h with h | h
      · exact Or.inl h
      · exact Or.inr (Or.inr (by rw [h]))
  | message mid ok =>
    intro h
    simp only [stepW, onMessage] at h
    cases hf : s.pendingRequests.find? (fun p => p.1 == mid) with
    | none =>
      simp only [hf] at h
      rcases processNext_pending s j h with h | h
      · exact Or.inl h
      · exact Or.inr (Or.inl h)
    | some p =>
      simp only [hf] at h
      rcases processNext_pending _ j h with h | h
      · left
        simp only [List.mem_map] at h ⊢
        obtain ⟨r, hr, hrj⟩ := h
        exact ⟨r, List.mem_of_mem_filter hr, hrj⟩
      · exact Or.inr (Or.inl (by simpa using h))

/-- Every settle observed along a run names a job that was already
settled, pending or queued at the start, or was submitted during the
run. -/
theorem settled_source : ∀ (fs : List WEvent) (s : CompressionWorker)
    (j : Nat) (b : Bool),
    (j, b) ∈ (runFrom s fs).settled →
    (j, b) ∈ s.settled ∨ j ∈ s.pendingRequests.map Prod.snd ∨
      j ∈ s.queue ∨ WEvent.submit j ∈ fs := by
  intro fs
  induction fs with
  | nil => intro s j b h; exact Or.inl h
  | cons e rest ih =>
    intro s j b h
    have h' := ih (stepW s e) j b (by simpa [runFrom] using h)
    rcases h' with h1 | h2 | h3 | h4
    · rcases settled_step s e j b h1 with hs | hp
      · exact Or.inl hs
      · exact Or.inr (Or.inl hp)
    · rcases pendingJobs_step s e j h2 with hp | hq | he
      · exact Or.inr (Or.inl hp)
      · exact Or.inr (Or.inr (Or.inl hq))
      · exact Or.inr (Or.inr (Or.inr (by rw [he]; exact List.mem_cons_self _ _)))
    · rcases queue_step s e j h3 with hq | he
      · exact Or.inr (Or.inr (Or.inl hq))
      · exact Or.inr (Or.inr (Or.inr (by rw [he]; exact List.mem_cons_self _ _)))
    · exact Or.inr (Or.inr (Or.inr (List.mem_cons_of_mem e h4)))

/-! ## C7 — reset abandons everything -/

/-- C7: after `reset()` on the queue manager the pending-request map and
the queue are empty and the manager is not in flight; no promise is
settled by the reset itself; a subsequent submission begins execution
immediately (it is posted to the worker at once, not queued); and every
job that was queued or in flight is abandoned — in any continuation its
promise is never resolved or rejected unless the same job label is
submitted again. -/
theorem worker_reset_abandons (es : List WEvent) (j : Nat) :
    ((runW es).reset).pendingRequests = [] ∧
    ((runW es).reset).queue = [] ∧
    ((runW es).reset).isProcessing = false ∧
    ((runW es).reset).settled = (runW es).settled ∧
    (∀ job : Nat,
      (((runW es).reset).compress job).executed =
        ((runW es).reset).executed ++ [job] ∧
      (((runW es).reset).compress job).isProcessing = true ∧
      (((runW es).reset).compress job).queue = []) ∧
    (∀ (fs : List WEvent) (b : Bool),
      (j, b) ∈ (runFrom ((runW es).reset) fs).settled →
      (j, b) ∈ (runW es).settled ∨ WEvent.submit j ∈ fs) := by
  refine ⟨rfl, rfl, rfl, rfl, ?_, ?_⟩
  · intro job
    refine ⟨?_, ?_, ?_⟩ <;>
      simp [CompressionWorker.compress, CompressionWorker.reset, executeCompress]
  · intro fs b h
    rcases settled_source fs ((runW es).reset) j b h with h1 | h2 | h3 | h4
    · exact Or.inl h1
    · simp [CompressionWorker.reset] at h2
    · simp [CompressionWorker.reset] at h3
    · exact Or.inr h4

/-- Witness for C7: reset with job 1 in flight and jobs 2 and 3 queued;
job 2 can only settle in a continuation because it is submitted afresh
there. -/
theorem worker_reset_abandons_w :
    ((2, true) ∈ (runFrom
        ((runW [WEvent.submit 1, WEvent.submit 2, WEvent.submit 3]).reset)
        [WEvent.submit 2, WEvent.message 1 true]).settled) ∧
    ((2, true) ∈ (runW [WEvent.submit 1, WEvent.submit 2,
        WEvent.submit 3]).settled ∨
      WEvent.submit 2 ∈ [WEvent.submit 2, WEvent.message 1 true]) :=
  ⟨by decide,
    (worker_reset_abandons [WEvent.submit 1, WEvent.submit 2, WEvent.submit 3]
        2).2.2.2.2.2 [WEvent.submit 2, WEvent.message 1 true] true (by decide)⟩
